import Mathlib

/-!
# imap-sieve-filter: the decision pipeline of `main.go`

A shallow embedding of `doMain` (the per-message loop that runs `sieve-test`, scans its
standard output and fills `movesByDestination`, and the final loop that performs or
reports the moves) and of the iterator adapters `all` and `allAndClose`.

Go strings and byte slices are lists of bytes.  Library code that `main.go` calls
(`bufio.Scanner`, `strings.TrimLeft`, `strings.CutPrefix`, `errors.Join`, `imap.UIDSet`)
is embedded by its documented behaviour.  A line of an output is a token that the scanner
delivers: the bytes up to a newline or the end of the input, without one final carriage
return.  The map is mutated in place in Go, so every function that can fail returns the
map together with the error.  The order in which `range` visits a map is not fixed: the
final loop takes the visiting order as an argument.
-/

set_option maxRecDepth 16384

namespace ImapSieveFilter

/-! ## Byte strings -/

/-- A Go `string` or `[]byte`. -/
abbrev Bytes := List UInt8

/-- The bytes of a string literal (Go source text is UTF-8). -/
def utf8 (s : String) : Bytes := s.data.flatMap String.utf8EncodeChar

/-- Go `strings.TrimLeft(s, cutset)` for an ASCII cutset: drop the leading bytes that
occur in `cutset`. -/
def trimLeft (s cutset : Bytes) : Bytes := s.dropWhile (fun b => decide (b ∈ cutset))

/-- Go `strings.HasPrefix(s, pre)`. -/
def hasPrefix : Bytes → Bytes → Bool
  | _, [] => true
  | [], _ :: _ => false
  | a :: s, b :: pre => decide (a = b) && hasPrefix s pre

/-- Go `strings.CutPrefix(s, pre)`: the rest of `s` and `true` when `s` starts with `pre`,
otherwise `s` itself and `false`. -/
def cutPrefix (s pre : Bytes) : Bytes × Bool :=
  if hasPrefix s pre then (s.drop pre.length, true) else (s, false)

/-- Go `fmt.Sprintf` for a format string whose only verb is `%s`: each `%s` is replaced by
the next argument. -/
def sprintf : Bytes → List Bytes → Bytes
  | [], _ => []
  | [c], _ => [c]
  | c :: d :: rest, args =>
    if c = 37 ∧ d = 115 then
      match args with
      | a :: more => a ++ sprintf rest more
      | [] => utf8 "%!s(MISSING)" ++ sprintf rest []
    else c :: sprintf (d :: rest) args

/-! ## `bufio.Scanner` with the default split function `ScanLines` -/

/-- Go `bufio.MaxScanTokenSize`, the size limit of the buffer of a scanner made by
`bufio.NewScanner`. -/
def maxScanTokenSize : Nat := 64 * 1024

/-- What `scanner.Err()` can return when reading from memory: `bufio.ErrTooLong`. -/
inductive ScanError where
  | tooLong
  deriving DecidableEq, Repr

/-- Go `dropCR` of package `bufio`: drop one terminal carriage return. -/
def dropCR (data : Bytes) : Bytes :=
  if data.getLast? = some 13 then data.dropLast else data

/-- The tokens `scanner.Scan()`/`scanner.Text()` deliver for the unread input, and the
value of `scanner.Err()` after `Scan` has returned false.  `cur` holds the bytes of the
line being read, last byte first.  A line ends at a newline or at the end of the input;
the bytes of a line before its newline must leave room in the buffer of
`maxScanTokenSize` bytes, otherwise scanning stops with `ErrTooLong`. -/
def scanFrom : Bytes → Bytes → List Bytes × Option ScanError
  | [], cur =>
    if cur = [] then ([], none)
    else if maxScanTokenSize ≤ cur.length then ([], some ScanError.tooLong)
    else ([dropCR cur.reverse], none)
  | b :: rest, cur =>
    if b = 10 then
      if maxScanTokenSize ≤ cur.length then ([], some ScanError.tooLong)
      else ((dropCR cur.reverse) :: (scanFrom rest []).1, (scanFrom rest []).2)
    else scanFrom rest (b :: cur)

/-- All lines of `bufio.NewScanner(bytes.NewReader(data))` with the final scan error. -/
def scanLines (data : Bytes) : List Bytes × Option ScanError := scanFrom data []

/-! ## The MoveSet `movesByDestination : map[string]imap.UIDSet` -/

/-- A message UID (`imap.UID`, an unsigned 32-bit number). -/
abbrev UID := Nat

/-- Modelled from the spec: `imap.UIDSet` of the go-imap library, which is not part of
the repository; the spec describes it as a set of message identifiers, unique per set and
without order. -/
abbrev UIDSet := Finset UID

/-- Modelled from the spec: `(*imap.UIDSet).AddNum(uid)` of the go-imap library inserts
the identifier into the set. -/
def AddNum (s : UIDSet) (uid : UID) : UIDSet := insert uid s

/-- A Go `map[string]imap.UIDSet` as the list of its entries; a key is looked up at its
first entry and assignment keeps one entry per key. -/
structure MoveSet where
  entries : List (Bytes × UIDSet)
  deriving DecidableEq

/-- The entry lookup behind `m[key]`. -/
def lookupEntries : List (Bytes × UIDSet) → Bytes → Option UIDSet
  | [], _ => none
  | (k, v) :: rest, key => if k = key then some v else lookupEntries rest key

/-- The entry update behind `m[key] = v`. -/
def assignEntries : List (Bytes × UIDSet) → Bytes → UIDSet → List (Bytes × UIDSet)
  | [], key, v => [(key, v)]
  | (k, w) :: rest, key, v =>
    if k = key then (k, v) :: rest else (k, w) :: assignEntries rest key v

/-- The empty map `map[string]imap.UIDSet{}`. -/
def MoveSet.empty : MoveSet := ⟨[]⟩

/-- The value stored under `key`, if the key is present (`v, ok := m[key]`). -/
def MoveSet.lookup (m : MoveSet) (key : Bytes) : Option UIDSet := lookupEntries m.entries key

/-- Go `m[key]`: the stored value, or the zero value (the empty set) for a missing key. -/
def MoveSet.index (m : MoveSet) (key : Bytes) : UIDSet := (m.lookup key).getD ∅

/-- Go `m[key] = v`. -/
def MoveSet.assign (m : MoveSet) (key : Bytes) (v : UIDSet) : MoveSet :=
  ⟨assignEntries m.entries key v⟩

/-- The keys of the map. -/
def MoveSet.keys (m : MoveSet) : List Bytes := m.entries.map Prod.fst

/-! ## Errors -/

/-- One failed move of the final loop:
`fmt.Errorf("failed to perform %d _(s) to %q: %w", len(msgs), dst, err)`. -/
structure MoveError where
  count : Nat
  dst : Bytes
  cause : Bytes
  deriving DecidableEq

/-- The errors `doMain` returns once the mailbox is selected.  An error made by
`fmt.Errorf` with the verbs `%q`, `%d` or `%w` keeps its arguments in the order of the
call; the error of a failed `sieve-test` run, whose format has only `%s`, is its text. -/
inductive Err where
  /-- `fmt.Errorf("failed to fetch mail: %w", err)` -/
  | fetch (cause : Bytes)
  /-- `fmt.Errorf("failed to download message %d/%d: %w", seqNum, numMessages, err)` -/
  | download (seqNum numMessages : Nat) (cause : Bytes)
  /-- `fmt.Errorf("failed to write header to temp file %q: %w", name, err)` -/
  | writeHeader (name cause : Bytes)
  /-- `fmt.Errorf("sieve-test failed: %s\nstdout:\n%s\nstderr:\n%s", ...)`, formatted -/
  | sieveTest (text : Bytes)
  /-- `fmt.Errorf("cannot parse sieve-test output, expected %q, got %q, full output:\n%s",
  want, line, &stdoutBuf)` -/
  | parseOutput (want line full : Bytes)
  /-- `fmt.Errorf("cannot parse performed action %q, full output:\n%s", line, &stdoutBuf)` -/
  | parseAction (line full : Bytes)
  /-- `fmt.Errorf("cannot parse implicit keep %q, full output:\n%s", line, &stdoutBuf)` -/
  | parseImplicitKeep (line full : Bytes)
  /-- `fmt.Errorf("inexplicable error during scanning of sieve-test output: %w", err)` -/
  | scanning (cause : ScanError)
  /-- `fmt.Errorf("did not find Implicit keep section in sieve-test output:\n%s",
  &stdoutBuf)` -/
  | noImplicitKeep (full : Bytes)
  /-- `errors.Join(errs...)` of the failed moves -/
  | join (errs : List MoveError)
  deriving DecidableEq

/-! ## Scanning the output of one `sieve-test` run -/

/-- The type `ParseState` with its three constants. -/
inductive ParseState where
  | expectPerformedActions
  | inPerformedActions
  | inImplicitKeep
  deriving DecidableEq, Repr

/-- The integer value of a `ParseState` constant (`iota + 1`). -/
def ParseState.toNat : ParseState → Nat
  | ParseState.expectPerformedActions => 1
  | ParseState.inPerformedActions => 2
  | ParseState.inImplicitKeep => 3

/-- The header line `"Performed actions:"`. -/
def performedActionsLine : Bytes := utf8 "Performed actions:"

/-- The line `"Implicit keep:"`. -/
def implicitKeepLine : Bytes := utf8 "Implicit keep:"

/-- The line `"(none)"`. -/
def noneLine : Bytes := utf8 "(none)"

/-- The text `"* store message in folder: "` in front of a destination. -/
def storeMarker : Bytes := utf8 "* store message in folder: "

/-- The cutset `" \t"` of the two `strings.TrimLeft` calls. -/
def blanks : Bytes := utf8 " \t"

/-- The body of the loop `for scanner.Scan()` for one line (the `switch parseState`):
the next parse state and the updated map, or the error that `doMain` returns. -/
def parseLine (mailboxName : Bytes) (uid : UID) (stdoutBuf : Bytes)
    (parseState : ParseState) (moves : MoveSet) (line : Bytes) :
    Except Err (ParseState × MoveSet) :=
  match parseState with
  | ParseState.expectPerformedActions =>
    if line = [] then Except.ok (parseState, moves)
    else if line ≠ performedActionsLine then
      Except.error (Err.parseOutput performedActionsLine line stdoutBuf)
    else Except.ok (ParseState.inPerformedActions, moves)
  | ParseState.inPerformedActions =>
    let line := trimLeft line blanks
    if line = [] then Except.ok (parseState, moves)
    else if line = noneLine then Except.ok (parseState, moves)
    else if line = implicitKeepLine then Except.ok (ParseState.inImplicitKeep, moves)
    else
      match cutPrefix line storeMarker with
      | (destination, true) =>
        if destination = mailboxName then Except.ok (parseState, moves)
        else
          Except.ok (parseState,
            moves.assign destination (AddNum (moves.index destination) uid))
      | (_, false) => Except.error (Err.parseAction line stdoutBuf)
  | ParseState.inImplicitKeep =>
    let line := trimLeft line blanks
    if line = [] then Except.ok (parseState, moves)
    else if line = noneLine then Except.ok (parseState, moves)
    else if hasPrefix line storeMarker then Except.ok (parseState, moves)
    else Except.error (Err.parseImplicitKeep line stdoutBuf)

/-- The state of the scan loop: the parse state, the map, and the error returned from
inside the loop, if any. -/
structure LoopResult where
  parseState : ParseState
  moves : MoveSet
  err : Option Err
  deriving DecidableEq

/-- The loop `for scanner.Scan() { ... }` over the lines the scanner delivers; it ends at
the first line whose handling returns an error. -/
def scanLoop (mailboxName : Bytes) (uid : UID) (stdoutBuf : Bytes) :
    List Bytes → ParseState → MoveSet → LoopResult
  | [], parseState, moves => ⟨parseState, moves, none⟩
  | line :: rest, parseState, moves =>
    match parseLine mailboxName uid stdoutBuf parseState moves line with
    | Except.error e => ⟨parseState, moves, some e⟩
    | Except.ok (parseState', moves') => scanLoop mailboxName uid stdoutBuf rest parseState' moves'

/-- Lines 163 to 223 of `doMain`: scan the captured standard output of `sieve-test` for
the message `uid`.  The result is the map after the scan and the error returned, `none`
when the message is done and the loop over the messages goes on. -/
def processOutput (mailboxName : Bytes) (uid : UID) (stdoutBuf : Bytes) (moves : MoveSet) :
    MoveSet × Option Err :=
  let r := scanLoop mailboxName uid stdoutBuf (scanLines stdoutBuf).1
    ParseState.expectPerformedActions moves
  match r.err with
  | some e => (r.moves, some e)
  | none =>
    match (scanLines stdoutBuf).2 with
    | some e => (r.moves, some (Err.scanning e))
    | none =>
      if r.parseState ≠ ParseState.inImplicitKeep then
        (r.moves, some (Err.noImplicitKeep stdoutBuf))
      else (r.moves, none)

/-! ## The loop over the fetched messages -/

/-- The format string of the error for a failed `sieve-test` run (line 161). -/
def sieveTestFormat : Bytes := utf8 "sieve-test failed: %s\nstdout:\n%s\nstderr:\n%s"

/-- What the outside world does for one element of the fetch stream: the result of
`msgFuture.Collect()`, the header section found in the response, and the outcome of writing
the header file and of running `sieve-test` on it. -/
structure Fetched where
  seqNum : Nat
  collectErr : Option Bytes
  uid : UID
  header : Option Bytes
  writeErr : Option Bytes
  runErr : Option Bytes
  stdout : Bytes
  stderr : Bytes
  deriving DecidableEq

/-- One pair yielded by `allAndClose(messages)`: an error, or a message. -/
inductive Item where
  | failed (err : Bytes)
  | message (m : Fetched)
  deriving DecidableEq

/-- The body of the loop `for msgFuture, err := range allAndClose(messages)` (lines 135 to
223): the map afterwards and the error `doMain` returns, `none` when the loop goes on. -/
def processItem (mailboxName : Bytes) (numMessages : Nat) (tmpName : Bytes)
    (item : Item) (moves : MoveSet) : MoveSet × Option Err :=
  match item with
  | Item.failed err => (moves, some (Err.fetch err))
  | Item.message m =>
    match m.collectErr with
    | some err => (moves, some (Err.download m.seqNum numMessages err))
    | none =>
      match m.header with
      | none => (moves, none)
      | some _ =>
        match m.writeErr with
        | some err => (moves, some (Err.writeHeader tmpName err))
        | none =>
          match m.runErr with
          | some err =>
            (moves, some (Err.sieveTest (sprintf sieveTestFormat [err, m.stdout, m.stdout])))
          | none => processOutput mailboxName m.uid m.stdout moves

/-- The whole loop over the stream, from the map `moves`; it stops at the first error. -/
def processAll (mailboxName : Bytes) (numMessages : Nat) (tmpName : Bytes) :
    List Item → MoveSet → MoveSet × Option Err
  | [], moves => (moves, none)
  | item :: rest, moves =>
    match processItem mailboxName numMessages tmpName item moves with
    | (moves', some e) => (moves', some e)
    | (moves', none) => processAll mailboxName numMessages tmpName rest moves'

/-! ## Performing the moves -/

/-- The trace of the final loop: the calls `c.Move(msgs, dst)` made so far, in order, and
the slice `errs`. -/
structure MoveRun where
  calls : List (UIDSet × Bytes)
  errs : List MoveError
  deriving DecidableEq

/-- The loop `for dst, msgs := range movesByDestination` (lines 226 to 237) over the
entries in the order `range` visits them.  `len` is Go `len(msgs)` and `move msgs dst` is
the error of `c.Move(msgs, dst).Wait()`, `none` on success. -/
def moveLoop (execute : Bool) (len : UIDSet → Nat) (move : UIDSet → Bytes → Option Bytes) :
    List (Bytes × UIDSet) → MoveRun → MoveRun
  | [], run => run
  | (dst, msgs) :: rest, run =>
    if !execute then moveLoop execute len move rest run
    else
      match move msgs dst with
      | some err =>
        moveLoop execute len move rest
          ⟨run.calls ++ [(msgs, dst)], run.errs ++ [⟨len msgs, dst, err⟩]⟩
      | none => moveLoop execute len move rest ⟨run.calls ++ [(msgs, dst)], run.errs⟩

/-- The entry appended to `errs` for one destination, if its move fails (line 232). -/
def moveFailure (len : UIDSet → Nat) (move : UIDSet → Bytes → Option Bytes)
    (e : Bytes × UIDSet) : Option MoveError :=
  (move e.2 e.1).map (fun cause => ⟨len e.2, e.1, cause⟩)

/-- Go `errors.Join(errs...)` for a slice of non-nil errors: nil when the slice is empty. -/
def errorsJoin (errs : List MoveError) : Option Err :=
  if errs = [] then none else some (Err.join errs)

/-- Lines 225 to 242 of `doMain`: the calls of `c.Move` and the error returned. -/
def executeMoves (execute : Bool) (len : UIDSet → Nat) (move : UIDSet → Bytes → Option Bytes)
    (order : List (Bytes × UIDSet)) : List (UIDSet × Bytes) × Option Err :=
  ((moveLoop execute len move order ⟨[], []⟩).calls,
    errorsJoin (moveLoop execute len move order ⟨[], []⟩).errs)

/-! ## The iterator adapters `all` and `allAndClose` -/

/-- An iterator with `Next` and `Close` over a finite sequence: the elements `Next` has
still to return, the error of `Close` (which may depend on the elements left), and the
number of calls of `Close` so far. -/
structure Iterator (Elem : Type) where
  pending : List Elem
  closeResult : List Elem → Option Bytes
  closeCalls : Nat

/-- The method `Next`: the next element, or nil at the end. -/
def Iterator.Next {Elem : Type} (it : Iterator Elem) : Option Elem × Iterator Elem :=
  match it.pending with
  | [] => (none, it)
  | elem :: rest => (some elem, { it with pending := rest })

/-- The method `Close`. -/
def Iterator.Close {Elem : Type} (it : Iterator Elem) : Option Bytes × Iterator Elem :=
  (it.closeResult it.pending, { it with closeCalls := it.closeCalls + 1 })

/-- The function `all(iterator)` applied to `yield`: the loop `for { ... }` of lines 278 to
286, run for at most `fuel` rounds; `none` when the rounds do not suffice.  `yield` works on
a state `s` and answers whether the iteration goes on. -/
def all {Elem τ : Type} (yield : τ → Elem → τ × Bool) :
    Nat → Iterator Elem → τ → Option (Iterator Elem × τ)
  | 0, _, _ => none
  | fuel + 1, it, s =>
    match it.Next with
    | (none, it') => some (it', s)
    | (some elem, it') =>
      match yield s elem with
      | (s', false) => some (it', s')
      | (s', true) => all yield fuel it' s'

/-- One call `yield(elem, err)` of the consumer of `allAndClose` with its answer. -/
structure Yielded (Elem : Type) where
  elem : Option Elem
  err : Option Bytes
  more : Bool

/-- The consumer side of `allAndClose`: the state of the consumer, the calls of `yield` in
order, and the variable `broke`. -/
structure Consumed (σ Elem : Type) where
  state : σ
  yielded : List (Yielded Elem)
  broke : Bool

/-- The body of `for elem := range all(iterator)` in `allAndClose` (lines 266 to 269):
`if !yield(elem, nil) { broke = true; return }`. -/
def yieldElem {σ Elem : Type} (yield : σ → Option Elem → Option Bytes → σ × Bool)
    (c : Consumed σ Elem) (elem : Elem) : Consumed σ Elem × Bool :=
  match yield c.state (some elem) none with
  | (s', true) => (⟨s', c.yielded ++ [⟨some elem, none, true⟩], c.broke⟩, true)
  | (s', false) => (⟨s', c.yielded ++ [⟨some elem, none, false⟩], true⟩, false)

/-- The function `allAndClose(iterator)` applied to `yield`: the range loop and then the
deferred function, which closes the iterator and yields the error of `Close` when there is
one and the consumer has not stopped. -/
def allAndClose {σ Elem : Type} (fuel : Nat) (it : Iterator Elem)
    (yield : σ → Option Elem → Option Bytes → σ × Bool) (s : σ) :
    Option (Iterator Elem × Consumed σ Elem) :=
  match all (yieldElem yield) fuel it ⟨s, [], false⟩ with
  | none => none
  | some (it', c) =>
    match it'.Close with
    | (some err, it'') =>
      if !c.broke then
        some (it'', ⟨(yield c.state none (some err)).1,
          c.yielded ++ [⟨none, some err, (yield c.state none (some err)).2⟩], c.broke⟩)
      else some (it'', c)
    | (none, it'') => some (it'', c)

/-! ## The sections of an output, in the words of the specification -/

/-- The lines of the Performed-actions section: those after the header (the first
non-empty line) and before the first line that is `Implicit keep:` once leading spaces
and tabs are stripped. -/
def performedSection (lines : List Bytes) : List Bytes :=
  ((lines.dropWhile (fun l => decide (l = []))).drop 1).takeWhile
    (fun l => decide (trimLeft l blanks ≠ implicitKeepLine))

/-- The destination `X` of a line of the form `* store message in folder: X` (after
stripping leading spaces and tabs), `none` for any other line. -/
def storeDestination (line : Bytes) : Option Bytes :=
  if hasPrefix (trimLeft line blanks) storeMarker then
    some ((trimLeft line blanks).drop storeMarker.length)
  else none

/-- The destinations of the store-message lines of the Performed-actions section, in
order. -/
def storeDestinations (lines : List Bytes) : List Bytes :=
  (performedSection lines).filterMap storeDestination

/-- The Action Aggregator of the specification for one message: every `FileInto`
destination other than the active mailbox receives the identifier. -/
def fileInto (mailboxName : Bytes) (uid : UID) (moves : MoveSet) (destination : Bytes) :
    MoveSet :=
  if destination = mailboxName then moves
  else moves.assign destination (AddNum (moves.index destination) uid)

/-- The destinations a stream element files its message into: the store destinations of
the output of `sieve-test` for a message with headers, none for a message without headers
and for a fetch error. -/
def filedInto (item : Item) : List Bytes :=
  match item with
  | Item.failed _ => []
  | Item.message m =>
    match m.header with
    | none => []
    | some _ => storeDestinations (scanLines m.stdout).1

/-- The UID of the message of a stream element. -/
def itemUID (item : Item) : Option UID :=
  match item with
  | Item.failed _ => none
  | Item.message m => some m.uid

/-- The Action Aggregator of the specification for one stream element. -/
def aggregateItem (mailboxName : Bytes) (moves : MoveSet) (item : Item) : MoveSet :=
  match item with
  | Item.failed _ => moves
  | Item.message m => (filedInto (Item.message m)).foldl (fileInto mailboxName m.uid) moves

/-! ## Sample inputs -/

/-- A stream for the instance of C3: two messages filed into `Archive`, one without
headers, one filed into `Spam`, one kept in the active mailbox. -/
def sampleStream : List Item :=
  [Item.message ⟨1, none, 11, some (utf8 "Subject: a\r\n"), none, none,
      utf8 "Performed actions:\n  * store message in folder: Archive\nImplicit keep:\n  (none)\n",
      []⟩,
    Item.message ⟨2, none, 12, none, none, none, [], []⟩,
    Item.message ⟨3, none, 13, some (utf8 "Subject: b\r\n"), none, none,
      utf8 "Performed actions:\n  * store message in folder: Spam\nImplicit keep:\n  (none)\n",
      []⟩,
    Item.message ⟨4, none, 14, some (utf8 "Subject: c\r\n"), none, none,
      utf8 "Performed actions:\n  * store message in folder: Archive\nImplicit keep:\n  (none)\n",
      []⟩,
    Item.message ⟨5, none, 15, some (utf8 "Subject: d\r\n"), none, none,
      utf8 "Performed actions:\n  * store message in folder: INBOX\nImplicit keep:\n  (none)\n",
      []⟩]

/-- An iterator for the instance of C10: three elements left, `Close` fails. -/
def sampleIterator : Iterator Nat :=
  ⟨[10, 20, 30], fun _ => some (utf8 "closed"), 0⟩

/-- A consumer for the instance of C10: it counts the calls and stops at element 20. -/
def stopAtTwenty (s : Nat) (elem : Option Nat) (_ : Option Bytes) : Nat × Bool :=
  (s + 1, decide (elem ≠ some 20))

/-- A consumer for the instance of C10: it counts the calls and never stops. -/
def neverStop (s : Nat) (_ : Option Nat) (_ : Option Bytes) : Nat × Bool :=
  (s + 1, true)

/-- The calls of `yield` and the value of `broke`, as plain data. -/
def Consumed.summary {σ Elem : Type} (c : Consumed σ Elem) :
    Bool × List (Option Elem × Option Bytes × Bool) :=
  (c.broke, c.yielded.map (fun y => (y.elem, y.err, y.more)))

/-! ## Facts about the scanner -/

theorem scanFrom_append (xs rest cur : Bytes) (h : (10 : UInt8) ∉ xs) :
    scanFrom (xs ++ rest) cur = scanFrom rest (xs.reverse ++ cur) := by
  induction xs generalizing cur with
  | nil => rfl
  | cons x xs ih =>
    have hx : x ≠ 10 := fun e => h (by simp [e])
    have hxs : (10 : UInt8) ∉ xs := fun e => h (List.mem_cons_of_mem _ e)
    rw [List.cons_append, scanFrom, if_neg hx, ih _ hxs]
    simp

/-- The scanner delivers nothing of a line of `maxScanTokenSize` bytes or more, ended by
a newline or by the end of the input: scanning stops with `ErrTooLong`. -/
theorem scanLines_long_line (xs rest : Bytes) (h : (10 : UInt8) ∉ xs)
    (hlen : maxScanTokenSize ≤ xs.length) :
    scanLines xs = ([], some ScanError.tooLong) ∧
    scanLines (xs ++ 10 :: rest) = ([], some ScanError.tooLong) := by
  have hne : xs.reverse ≠ [] := by
    intro e
    have : xs.length = 0 := by simpa using congrArg List.length e
    rw [this] at hlen
    exact absurd hlen (by decide)
  constructor
  · have := scanFrom_append xs [] [] h
    rw [List.append_nil, List.append_nil] at this
    rw [scanLines, this, scanFrom, if_neg hne, if_pos (by simpa using hlen)]
  · rw [scanLines, scanFrom_append xs _ [] h, List.append_nil, scanFrom, if_pos rfl,
      if_pos (by simpa using hlen)]

/-- An output whose first line has `maxScanTokenSize` bytes or more is outside the lines
the loop ever sees: the run ends with the scan error and the map as it was. -/
theorem processOutput_long_line (mailboxName : Bytes) (uid : UID) (moves : MoveSet)
    (xs rest : Bytes) (h : (10 : UInt8) ∉ xs) (hlen : maxScanTokenSize ≤ xs.length) :
    processOutput mailboxName uid (xs ++ 10 :: rest) moves
      = (moves, some (Err.scanning ScanError.tooLong)) := by
  simp [processOutput, (scanLines_long_line xs rest h hlen).2, scanLoop]

/-- An output whose line behind the header has `maxScanTokenSize` bytes or more: the
header is handled, then the run ends with the scan error and the map as it was. -/
theorem processOutput_long_action_line (mailboxName : Bytes) (uid : UID) (moves : MoveSet)
    (xs rest : Bytes) (h : (10 : UInt8) ∉ xs) (hlen : maxScanTokenSize ≤ xs.length) :
    processOutput mailboxName uid (performedActionsLine ++ 10 :: (xs ++ 10 :: rest)) moves
      = (moves, some (Err.scanning ScanError.tooLong)) := by
  have hlong : scanFrom (xs ++ 10 :: rest) [] = ([], some ScanError.tooLong) :=
    (scanLines_long_line xs rest h hlen).2
  have hhead : dropCR (performedActionsLine.reverse ++ []).reverse = performedActionsLine := by
    decide
  have hscan : scanLines (performedActionsLine ++ 10 :: (xs ++ 10 :: rest))
      = ([performedActionsLine], some ScanError.tooLong) := by
    rw [scanLines, scanFrom_append performedActionsLine _ [] (by decide), scanFrom,
      if_pos rfl, if_neg (by decide), hlong, hhead]
  have hp : performedActionsLine ≠ [] := by decide
  generalize performedActionsLine ++ 10 :: (xs ++ 10 :: rest) = out at hscan ⊢
  have hloop : scanLoop mailboxName uid out [performedActionsLine]
      ParseState.expectPerformedActions moves
      = ⟨ParseState.inPerformedActions, moves, none⟩ := by
    rw [scanLoop]
    simp only [parseLine, hp, if_false, ne_eq, not_true_eq_false]
    rfl
  simp [processOutput, hscan, hloop]

/-! ## Facts about the map -/

theorem lookupEntries_assignEntries (es : List (Bytes × UIDSet)) (key : Bytes) (v : UIDSet)
    (k : Bytes) :
    lookupEntries (assignEntries es key v) k
      = if k = key then some v else lookupEntries es k := by
  induction es with
  | nil =>
    simp only [assignEntries, lookupEntries]
    by_cases h : key = k
    · simp [h]
    · have h' : ¬ k = key := fun e => h e.symm
      simp [h, h']
  | cons e rest ih =>
    obtain ⟨a, w⟩ := e
    by_cases ha : a = key
    · subst ha
      simp only [assignEntries, if_true, lookupEntries]
      by_cases hk : a = k
      · simp [hk]
      · have hk' : ¬ k = a := fun e => hk e.symm
        simp [hk, hk']
    · simp only [assignEntries, if_neg ha, lookupEntries, ih]
      by_cases hk : a = k
      · have : ¬ k = key := fun e => ha (hk.trans e)
        simp [hk, this]
      · simp [hk]

theorem lookup_assign (m : MoveSet) (key : Bytes) (v : UIDSet) (k : Bytes) :
    (m.assign key v).lookup k = if k = key then some v else m.lookup k := by
  simp [MoveSet.assign, MoveSet.lookup, lookupEntries_assignEntries]

theorem lookup_fileInto (mailboxName : Bytes) (uid : UID) (m : MoveSet) (d k : Bytes) :
    (fileInto mailboxName uid m d).lookup k
      = if k = d ∧ d ≠ mailboxName then some (insert uid (m.index d)) else m.lookup k := by
  unfold fileInto
  by_cases h : d = mailboxName
  · simp [h]
  · simp [h, lookup_assign, AddNum]

/-! ## Facts about the line handler -/

theorem hasPrefix_nil : hasPrefix [] storeMarker = false := by decide

theorem hasPrefix_noneLine : hasPrefix noneLine storeMarker = false := by decide

theorem hasPrefix_implicitKeepLine : hasPrefix implicitKeepLine storeMarker = false := by decide

theorem parseLine_inImplicitKeep (mailboxName : Bytes) (uid : UID) (out : Bytes)
    (moves : MoveSet) (line : Bytes) (st : ParseState) (moves' : MoveSet)
    (h : parseLine mailboxName uid out ParseState.inImplicitKeep moves line
      = Except.ok (st, moves')) :
    st = ParseState.inImplicitKeep ∧ moves' = moves := by
  simp only [parseLine] at h
  split_ifs at h <;> simp_all

theorem parseLine_inPerformedActions (mailboxName : Bytes) (uid : UID) (out : Bytes)
    (moves : MoveSet) (line : Bytes) :
    parseLine mailboxName uid out ParseState.inPerformedActions moves line
      = if trimLeft line blanks = [] ∨ trimLeft line blanks = noneLine then
          Except.ok (ParseState.inPerformedActions, moves)
        else if trimLeft line blanks = implicitKeepLine then
          Except.ok (ParseState.inImplicitKeep, moves)
        else
          match storeDestination line with
          | some d => Except.ok (ParseState.inPerformedActions, fileInto mailboxName uid moves d)
          | none => Except.error (Err.parseAction (trimLeft line blanks) out) := by
  simp only [parseLine, storeDestination, cutPrefix, fileInto]
  by_cases h1 : trimLeft line blanks = []
  · simp [h1]
  by_cases h2 : trimLeft line blanks = noneLine
  · simp [h2]
  by_cases h3 : trimLeft line blanks = implicitKeepLine
  · have e1 : implicitKeepLine ≠ [] := by decide
    have e2 : implicitKeepLine ≠ noneLine := by decide
    simp [h3, e1, e2]
  by_cases h4 : hasPrefix (trimLeft line blanks) storeMarker = true
  · simp only [h1, h2, h3, h4, if_true, if_false, or_self]
    split_ifs <;> rfl
  · simp [h1, h2, h3, h4]

/-! ## Facts about the scan loop -/

theorem storeDestination_of_nil (line : Bytes) (h : trimLeft line blanks = []) :
    storeDestination line = none := by
  simp [storeDestination, h, hasPrefix_nil]

theorem storeDestination_of_none (line : Bytes) (h : trimLeft line blanks = noneLine) :
    storeDestination line = none := by
  simp [storeDestination, h, hasPrefix_noneLine]

theorem scanLoop_inImplicitKeep (mailboxName : Bytes) (uid : UID) (out : Bytes)
    (lines : List Bytes) (moves : MoveSet) :
    (scanLoop mailboxName uid out lines ParseState.inImplicitKeep moves).moves = moves ∧
    (scanLoop mailboxName uid out lines ParseState.inImplicitKeep moves).parseState
      = ParseState.inImplicitKeep := by
  induction lines with
  | nil => simp [scanLoop]
  | cons line rest ih =>
    cases h : parseLine mailboxName uid out ParseState.inImplicitKeep moves line with
    | error e => simp [scanLoop, h]
    | ok p =>
      obtain ⟨st, mv⟩ := p
      obtain ⟨h1, h2⟩ := parseLine_inImplicitKeep mailboxName uid out moves line st mv h
      subst h1 h2
      simpa [scanLoop, h] using ih

theorem scanLoop_inPerformedActions (mailboxName : Bytes) (uid : UID) (out : Bytes)
    (lines : List Bytes) (moves : MoveSet)
    (h : (scanLoop mailboxName uid out lines ParseState.inPerformedActions moves).err = none) :
    (scanLoop mailboxName uid out lines ParseState.inPerformedActions moves).moves
      = ((lines.takeWhile (fun l => decide (trimLeft l blanks ≠ implicitKeepLine))).filterMap
          storeDestination).foldl (fileInto mailboxName uid) moves ∧
    ((scanLoop mailboxName uid out lines ParseState.inPerformedActions moves).parseState
        = ParseState.inImplicitKeep ↔ ∃ l ∈ lines, trimLeft l blanks = implicitKeepLine) ∧
    ((scanLoop mailboxName uid out lines ParseState.inPerformedActions moves).parseState
        ≠ ParseState.inImplicitKeep →
      (scanLoop mailboxName uid out lines ParseState.inPerformedActions moves).parseState
        = ParseState.inPerformedActions) := by
  induction lines generalizing moves with
  | nil => simp [scanLoop]
  | cons line rest ih =>
    have e1 : implicitKeepLine ≠ [] := by decide
    have e2 : implicitKeepLine ≠ noneLine := by decide
    rw [scanLoop, parseLine_inPerformedActions] at h ⊢
    by_cases h1 : trimLeft line blanks = [] ∨ trimLeft line blanks = noneLine
    · have hk : trimLeft line blanks ≠ implicitKeepLine := by
        rcases h1 with h1 | h1 <;> rw [h1] <;> [exact e1.symm; exact e2.symm]
      have hd : storeDestination line = none := by
        rcases h1 with h1 | h1
        · exact storeDestination_of_nil line h1
        · exact storeDestination_of_none line h1
      rw [if_pos h1] at h ⊢
      simp only at h ⊢
      obtain ⟨i1, i2, i3⟩ := ih moves h
      refine ⟨?_, ?_, i3⟩
      · simp [List.takeWhile_cons, hk, hd, i1]
      · simp [i2, hk]
    · rw [if_neg h1] at h ⊢
      by_cases h3 : trimLeft line blanks = implicitKeepLine
      · rw [if_pos h3] at h ⊢
        simp only at h ⊢
        obtain ⟨j1, j2⟩ := scanLoop_inImplicitKeep mailboxName uid out rest moves
        refine ⟨?_, ?_, ?_⟩
        · simp [List.takeWhile_cons, h3, j1]
        · simp [j2, h3]
        · intro hn; exact absurd j2 hn
      · rw [if_neg h3] at h ⊢
        cases hd : storeDestination line with
        | none => simp [hd] at h
        | some d =>
          simp only [hd] at h ⊢
          obtain ⟨i1, i2, i3⟩ := ih (fileInto mailboxName uid moves d) h
          refine ⟨?_, ?_, i3⟩
          · simp [List.takeWhile_cons, h3, hd, i1]
          · simp [i2, h3]

theorem scanLoop_expectPerformedActions (mailboxName : Bytes) (uid : UID) (out : Bytes)
    (lines : List Bytes) (moves : MoveSet)
    (h : (scanLoop mailboxName uid out lines ParseState.expectPerformedActions moves).err
      = none) :
    (scanLoop mailboxName uid out lines ParseState.expectPerformedActions moves).moves
      = (storeDestinations lines).foldl (fileInto mailboxName uid) moves ∧
    ((scanLoop mailboxName uid out lines ParseState.expectPerformedActions moves).parseState
        = ParseState.inImplicitKeep ↔
      ∃ l ∈ (lines.dropWhile (fun l => decide (l = []))).drop 1,
        trimLeft l blanks = implicitKeepLine) := by
  induction lines with
  | nil => simp [scanLoop, storeDestinations, performedSection]
  | cons line rest ih =>
    rw [scanLoop] at h ⊢
    by_cases h0 : line = []
    · subst h0
      simp only [parseLine, if_true] at h ⊢
      obtain ⟨i1, i2⟩ := ih h
      refine ⟨?_, ?_⟩
      · simpa [storeDestinations, performedSection, List.dropWhile_cons] using i1
      · simpa [List.dropWhile_cons] using i2
    · by_cases h1 : line = performedActionsLine
      · simp only [parseLine, if_neg h0, h1, ne_eq, not_true_eq_false, if_false] at h ⊢
        obtain ⟨j1, j2, _⟩ := scanLoop_inPerformedActions mailboxName uid out rest moves h
        have hp : performedActionsLine ≠ [] := by decide
        refine ⟨?_, ?_⟩
        · simp [storeDestinations, performedSection, List.dropWhile_cons, hp, j1]
        · simp [List.dropWhile_cons, hp, j2]
      · simp [parseLine, h0, h1] at h

/-! ## Facts about one processed output -/

theorem processOutput_accepted (mailboxName : Bytes) (uid : UID) (out : Bytes)
    (moves : MoveSet) (h : (processOutput mailboxName uid out moves).2 = none) :
    (processOutput mailboxName uid out moves).1
      = (storeDestinations (scanLines out).1).foldl (fileInto mailboxName uid) moves ∧
    (scanLines out).2 = none ∧
    ∃ l ∈ ((scanLines out).1.dropWhile (fun l => decide (l = []))).drop 1,
      trimLeft l blanks = implicitKeepLine := by
  unfold processOutput at h ⊢
  cases he : (scanLoop mailboxName uid out (scanLines out).1
      ParseState.expectPerformedActions moves).err with
  | some e => simp [he] at h
  | none =>
    obtain ⟨i1, i2⟩ := scanLoop_expectPerformedActions mailboxName uid out _ moves he
    cases hs : (scanLines out).2 with
    | some e => simp [he, hs] at h
    | none =>
      by_cases hst : (scanLoop mailboxName uid out (scanLines out).1
          ParseState.expectPerformedActions moves).parseState = ParseState.inImplicitKeep
      · refine ⟨?_, rfl, i2.1 hst⟩
        simp [he, hs, hst, i1]
      · simp [he, hs, hst] at h

theorem index_fileInto (mailboxName : Bytes) (uid : UID) (m : MoveSet) (d k : Bytes) :
    (fileInto mailboxName uid m d).index k
      = if k = d ∧ d ≠ mailboxName then insert uid (m.index d) else m.index k := by
  unfold MoveSet.index
  rw [lookup_fileInto]
  split_ifs <;> rfl

theorem mem_index_foldl_fileInto (mailboxName : Bytes) (uid : UID) (ds : List Bytes)
    (m : MoveSet) (k : Bytes) (u : UID) :
    u ∈ (ds.foldl (fileInto mailboxName uid) m).index k
      ↔ u ∈ m.index k ∨ (u = uid ∧ k ≠ mailboxName ∧ k ∈ ds) := by
  induction ds generalizing m with
  | nil => simp
  | cons d rest ih =>
    rw [List.foldl_cons, ih, index_fileInto]
    by_cases hk : k = d
    · subst hk
      by_cases hm : k = mailboxName
      · simp [hm]
      · simp only [hm, ne_eq, not_false_eq_true, and_true, if_true, Finset.mem_insert,
          List.mem_cons, true_or, true_and]
        tauto
    · simp only [hk, false_and, if_false, List.mem_cons, false_or]

/-- C1: an accepted output whose Performed-actions section has exactly one store-message
line, naming a destination `X` other than the active mailbox, is processed without error
and changes the map by inserting the UID into the set under `X` (made from the empty set
when `X` was no key); every other key keeps its value. -/
theorem store_line_inserts_uid (mailboxName : Bytes) (u : UID) (X out : Bytes)
    (moves : MoveSet) (hX : X ≠ mailboxName)
    (hacc : (processOutput mailboxName u out moves).2 = none)
    (hone : storeDestinations (scanLines out).1 = [X]) :
    (processOutput mailboxName u out moves).2 = none ∧
    ∀ d, (processOutput mailboxName u out moves).1.lookup d
      = if d = X then some (insert u (moves.index X)) else moves.lookup d := by
  refine ⟨hacc, fun d => ?_⟩
  rw [(processOutput_accepted mailboxName u out moves hacc).1, hone]
  simp [lookup_fileInto, hX]

/-- The example of C1: UID 42 in mailbox `INBOX`, one store line for `Archive`, from the
empty map. -/
theorem store_line_inserts_uid_witness :
    utf8 "Archive" ≠ utf8 "INBOX" ∧
    processOutput (utf8 "INBOX") 42
        (utf8 "Performed actions:\n    * store message in folder: Archive\nImplicit keep:\n    (none)\n")
        MoveSet.empty
      = (⟨[(utf8 "Archive", {42})]⟩, none) ∧
    ((processOutput (utf8 "INBOX") 42
        (utf8 "Performed actions:\n    * store message in folder: Archive\nImplicit keep:\n    (none)\n")
        MoveSet.empty).2 = none ∧
      ∀ d, (processOutput (utf8 "INBOX") 42
          (utf8 "Performed actions:\n    * store message in folder: Archive\nImplicit keep:\n    (none)\n")
          MoveSet.empty).1.lookup d
        = if d = utf8 "Archive" then some (insert 42 (MoveSet.empty.index (utf8 "Archive")))
          else MoveSet.empty.lookup d) :=
  ⟨by decide, by decide,
    store_line_inserts_uid (utf8 "INBOX") 42 (utf8 "Archive") _ MoveSet.empty (by decide)
      (by decide) (by decide)⟩

theorem scanLoop_skip_empty (mailboxName : Bytes) (uid : UID) (out : Bytes)
    (pre rest : List Bytes) (st : ParseState) (moves : MoveSet)
    (hst : st = ParseState.expectPerformedActions) (hpre : ∀ l ∈ pre, l = []) :
    scanLoop mailboxName uid out (pre ++ rest) st moves
      = scanLoop mailboxName uid out rest st moves := by
  subst hst
  induction pre with
  | nil => rfl
  | cons l pre ih =>
    have hl : l = [] := hpre l (List.mem_cons_self _ _)
    subst hl
    rw [List.cons_append, scanLoop]
    simp only [parseLine, if_true]
    exact ih (fun l hl => hpre l (List.mem_cons_of_mem _ hl))

theorem scanLoop_keep_lines (mailboxName : Bytes) (uid : UID) (out : Bytes)
    (post : List Bytes) (moves : MoveSet)
    (hpost : ∀ l ∈ post, trimLeft l blanks = [] ∨ trimLeft l blanks = noneLine ∨
      hasPrefix (trimLeft l blanks) storeMarker = true) :
    scanLoop mailboxName uid out post ParseState.inImplicitKeep moves
      = ⟨ParseState.inImplicitKeep, moves, none⟩ := by
  induction post with
  | nil => rfl
  | cons l post ih =>
    have hl := hpost l (List.mem_cons_self _ _)
    have hp : parseLine mailboxName uid out ParseState.inImplicitKeep moves l
        = Except.ok (ParseState.inImplicitKeep, moves) := by
      simp only [parseLine]
      rcases hl with hl | hl | hl
      · simp [hl]
      · simp [hl]
      · simp [hl]
    rw [scanLoop, hp]
    exact ih (fun l hl => hpost l (List.mem_cons_of_mem _ hl))

theorem scanLoop_none_lines (mailboxName : Bytes) (uid : UID) (out : Bytes)
    (mid rest : List Bytes) (moves : MoveSet)
    (hmid : ∀ l ∈ mid, trimLeft l blanks = [] ∨ trimLeft l blanks = noneLine) :
    scanLoop mailboxName uid out (mid ++ rest) ParseState.inPerformedActions moves
      = scanLoop mailboxName uid out rest ParseState.inPerformedActions moves := by
  induction mid with
  | nil => rfl
  | cons l mid ih =>
    have hl := hmid l (List.mem_cons_self _ _)
    rw [List.cons_append, scanLoop, parseLine_inPerformedActions, if_pos hl]
    exact ih (fun l hl => hmid l (List.mem_cons_of_mem _ hl))

/-- The counterexample to C2: an output of the stated shape is rejected when a line of
spaces stands before the header (the header state skips only the empty line and gives
the header-absence error for it), and when a `(none)` line with 65530 leading spaces
stands in the Performed-actions section (the scanner gives up on a line of 65536 bytes
and the run ends with the scan error). -/
theorem implicit_keep_shape_counterexample :
    processOutput (utf8 "INBOX") 7
        (utf8 "  \nPerformed actions:\n  (none)\nImplicit keep:\n  (none)\n")
        ⟨[(utf8 "Archive", {42})]⟩
      = (⟨[(utf8 "Archive", {42})]⟩,
          some (Err.parseOutput (utf8 "Performed actions:") (utf8 "  ")
            (utf8 "  \nPerformed actions:\n  (none)\nImplicit keep:\n  (none)\n"))) ∧
    processOutput (utf8 "INBOX") 7
        (performedActionsLine ++ 10 ::
          ((List.replicate 65530 32 ++ noneLine) ++ 10 :: utf8 "Implicit keep:\n"))
        ⟨[(utf8 "Archive", {42})]⟩
      = (⟨[(utf8 "Archive", {42})]⟩, some (Err.scanning ScanError.tooLong)) := by
  refine ⟨by decide, ?_⟩
  refine processOutput_long_action_line _ _ _ _ _ ?_ ?_
  · intro h
    rcases List.mem_append.1 h with h | h
    · exact absurd (List.eq_of_mem_replicate h) (by decide)
    · exact absurd h (by decide)
  · rw [List.length_append, List.length_replicate]
    decide

/-- C2, amended: an output that the scanner splits, without a scan error, into empty
lines, the line `Performed actions:`, lines that are empty or `(none)` once leading spaces
and tabs are stripped, an `Implicit keep:` line, and then only lines that are empty,
`(none)` or start with `* store message in folder: ` (again after stripping), is processed
without error and the map stays exactly as it was. -/
theorem implicit_keep_leaves_moves (mailboxName : Bytes) (uid : UID) (out : Bytes)
    (moves : MoveSet) (pre mid post : List Bytes) (keep : Bytes)
    (hscan : scanLines out = (pre ++ performedActionsLine :: (mid ++ keep :: post), none))
    (hpre : ∀ l ∈ pre, l = [])
    (hmid : ∀ l ∈ mid, trimLeft l blanks = [] ∨ trimLeft l blanks = noneLine)
    (hkeep : trimLeft keep blanks = implicitKeepLine)
    (hpost : ∀ l ∈ post, trimLeft l blanks = [] ∨ trimLeft l blanks = noneLine ∨
      hasPrefix (trimLeft l blanks) storeMarker = true) :
    processOutput mailboxName uid out moves = (moves, none) := by
  have e1 : implicitKeepLine ≠ [] := by decide
  have e2 : implicitKeepLine ≠ noneLine := by decide
  have hp : performedActionsLine ≠ [] := by decide
  have hloop : scanLoop mailboxName uid out
      (pre ++ performedActionsLine :: (mid ++ keep :: post))
      ParseState.expectPerformedActions moves = ⟨ParseState.inImplicitKeep, moves, none⟩ := by
    rw [scanLoop_skip_empty mailboxName uid out pre _ _ moves rfl hpre, scanLoop]
    simp only [parseLine, hp, if_false, ne_eq, not_true_eq_false]
    rw [scanLoop_none_lines mailboxName uid out mid _ moves hmid, scanLoop,
      parseLine_inPerformedActions]
    simp only [hkeep, e1, e2, or_self, if_false, if_true]
    exact scanLoop_keep_lines mailboxName uid out post moves hpost
  simp [processOutput, hscan, hloop]

/-- An instance of amended C2: the keep section names a folder, the map holds an entry. -/
theorem implicit_keep_leaves_moves_witness :
    processOutput (utf8 "INBOX") 7
        (utf8 "\nPerformed actions:\n  (none)\n\nImplicit keep:\n  * store message in folder: INBOX\n")
        ⟨[(utf8 "Archive", {42})]⟩
      = (⟨[(utf8 "Archive", {42})]⟩, none) :=
  implicit_keep_leaves_moves (utf8 "INBOX") 7 _ ⟨[(utf8 "Archive", {42})]⟩
    [[]] [utf8 "  (none)", []] [utf8 "  * store message in folder: INBOX"] (utf8 "Implicit keep:")
    (by decide) (by decide) (by decide) (by decide) (by decide)

/-- The header-absence error for every line the scanner delivers: when the first non-empty
line the scanner delivers is not exactly `Performed actions:`, processing returns the error
"cannot parse sieve-test output, expected ..., got ..." built from the expected header,
that line and the full output, and the map is as before. -/
theorem missing_header_error (mailboxName : Bytes) (uid : UID) (out : Bytes)
    (moves : MoveSet) (pre rest : List Bytes) (line : Bytes) (scanErr : Option ScanError)
    (hscan : scanLines out = (pre ++ line :: rest, scanErr))
    (hpre : ∀ l ∈ pre, l = []) (hne : line ≠ []) (hline : line ≠ performedActionsLine) :
    processOutput mailboxName uid out moves
      = (moves, some (Err.parseOutput performedActionsLine line out)) := by
  have hloop : scanLoop mailboxName uid out (pre ++ line :: rest)
      ParseState.expectPerformedActions moves
      = ⟨ParseState.expectPerformedActions, moves,
          some (Err.parseOutput performedActionsLine line out)⟩ := by
    rw [scanLoop_skip_empty mailboxName uid out pre _ _ moves rfl hpre, scanLoop]
    simp [parseLine, hne, hline]
  simp [processOutput, hscan, hloop]

/-- An instance of `missing_header_error`: the header is indented. -/
theorem missing_header_error_witness :
    processOutput (utf8 "INBOX") 7
        (utf8 "\n  Performed actions:\n  * store message in folder: Archive\nImplicit keep:\n")
        ⟨[(utf8 "Archive", {42})]⟩
      = (⟨[(utf8 "Archive", {42})]⟩,
          some (Err.parseOutput (utf8 "Performed actions:") (utf8 "  Performed actions:")
            (utf8 "\n  Performed actions:\n  * store message in folder: Archive\nImplicit keep:\n"))) :=
  missing_header_error (utf8 "INBOX") 7 _ ⟨[(utf8 "Archive", {42})]⟩ [[]]
    [utf8 "  * store message in folder: Archive", utf8 "Implicit keep:"]
    (utf8 "  Performed actions:") none (by decide) (by decide) (by decide) (by decide)

/-- C8, the code at a failing input: the first non-empty line is 65536 bytes `x`, which
is not the header; the scanner does not deliver it, so the run ends with the error of the
scanner ("inexplicable error during scanning ...") and not with the header-absence error
that echoes the line and the output. -/
theorem missing_header_long_line :
    processOutput (utf8 "INBOX") 7
        (List.replicate 65536 120 ++ 10 :: utf8 "Implicit keep:\n") MoveSet.empty
      = (MoveSet.empty, some (Err.scanning ScanError.tooLong)) ∧
    (processOutput (utf8 "INBOX") 7
        (List.replicate 65536 120 ++ 10 :: utf8 "Implicit keep:\n") MoveSet.empty).2
      ≠ some (Err.parseOutput performedActionsLine (List.replicate 65536 120)
          (List.replicate 65536 120 ++ 10 :: utf8 "Implicit keep:\n")) := by
  have h : processOutput (utf8 "INBOX") 7
      (List.replicate 65536 120 ++ 10 :: utf8 "Implicit keep:\n") MoveSet.empty
      = (MoveSet.empty, some (Err.scanning ScanError.tooLong)) := by
    refine processOutput_long_line _ _ _ _ _ ?_ ?_
    · intro h
      exact absurd (List.eq_of_mem_replicate h) (by decide)
    · rw [List.length_replicate]
      decide
  refine ⟨h, ?_⟩
  rw [h]
  intro e
  cases e

theorem parseLine_forward (mailboxName : Bytes) (uid : UID) (out : Bytes) (st : ParseState)
    (moves : MoveSet) (line : Bytes) (st' : ParseState) (moves' : MoveSet)
    (h : parseLine mailboxName uid out st moves line = Except.ok (st', moves')) :
    st.toNat ≤ st'.toNat := by
  cases st with
  | expectPerformedActions =>
    simp only [parseLine] at h
    split_ifs at h <;> cases h <;> decide
  | inPerformedActions =>
    rw [parseLine_inPerformedActions] at h
    split_ifs at h
    · cases h; decide
    · cases h; decide
    · cases hd : storeDestination line with
      | none => simp [hd] at h
      | some d =>
        simp only [hd] at h
        cases h; decide
  | inImplicitKeep =>
    obtain ⟨h1, _⟩ := parseLine_inImplicitKeep mailboxName uid out moves line st' moves' h
    subst h1
    decide

/-- C9: the parse state never moves back; an output whose lines are all scanned without
an error of a line, and which has no `Implicit keep:` line (after stripping leading spaces
and tabs) behind its header, ends in the error "did not find Implicit keep section"; and
an accepted output has an `Implicit keep:` line behind its header. -/
theorem missing_implicit_keep_error :
    (∀ (mailboxName : Bytes) (uid : UID) (out : Bytes) (st : ParseState) (moves : MoveSet)
        (line : Bytes) (st' : ParseState) (moves' : MoveSet),
        parseLine mailboxName uid out st moves line = Except.ok (st', moves') →
        st.toNat ≤ st'.toNat) ∧
    (∀ (mailboxName : Bytes) (uid : UID) (out : Bytes) (moves : MoveSet),
        (scanLines out).2 = none →
        (scanLoop mailboxName uid out (scanLines out).1
          ParseState.expectPerformedActions moves).err = none →
        (∀ l ∈ ((scanLines out).1.dropWhile (fun l => decide (l = []))).drop 1,
          trimLeft l blanks ≠ implicitKeepLine) →
        (processOutput mailboxName uid out moves).2 = some (Err.noImplicitKeep out)) ∧
    (∀ (mailboxName : Bytes) (uid : UID) (out : Bytes) (moves : MoveSet),
        (processOutput mailboxName uid out moves).2 = none →
        ∃ l ∈ ((scanLines out).1.dropWhile (fun l => decide (l = []))).drop 1,
          trimLeft l blanks = implicitKeepLine) := by
  refine ⟨parseLine_forward, ?_, ?_⟩
  · intro mailboxName uid out moves hscan herr hno
    have hst : (scanLoop mailboxName uid out (scanLines out).1
        ParseState.expectPerformedActions moves).parseState ≠ ParseState.inImplicitKeep := by
      intro hk
      obtain ⟨l, hl, hl'⟩ :=
        (scanLoop_expectPerformedActions mailboxName uid out _ moves herr).2.1 hk
      exact hno l hl hl'
    simp [processOutput, hscan, herr, hst]
  · intro mailboxName uid out moves hacc
    exact (processOutput_accepted mailboxName uid out moves hacc).2.2

/-- An instance of C9: a header and a store line, but no `Implicit keep:` line. -/
theorem missing_implicit_keep_error_witness :
    (processOutput (utf8 "INBOX") 7
        (utf8 "Performed actions:\n  * store message in folder: Archive\n") MoveSet.empty).2
      = some (Err.noImplicitKeep
          (utf8 "Performed actions:\n  * store message in folder: Archive\n")) :=
  missing_implicit_keep_error.2.1 (utf8 "INBOX") 7
    (utf8 "Performed actions:\n  * store message in folder: Archive\n") MoveSet.empty
    (by decide) (by decide) (by decide)

/-- The counterexample to C4: two store lines with different destinations put the UID
into the sets of both destinations, not only into that of the last one. -/
theorem last_store_line_wins_counterexample :
    ¬ (∀ (mailboxName : Bytes) (u : UID) (out : Bytes) (moves : MoveSet),
        (∀ d, u ∉ moves.index d) →
        (processOutput mailboxName u out moves).2 = none →
        ∀ d₁ d₂, u ∈ (processOutput mailboxName u out moves).1.index d₁ →
          u ∈ (processOutput mailboxName u out moves).1.index d₂ → d₁ = d₂) := by
  intro h
  have h' := h (utf8 "INBOX") 7
    (utf8 "Performed actions:\n  * store message in folder: A\n  * store message in folder: B\nImplicit keep:\n  (none)\n")
    MoveSet.empty (by intro d; simp [MoveSet.index, MoveSet.lookup, MoveSet.empty, lookupEntries])
    (by decide) (utf8 "A") (utf8 "B") (by decide) (by decide)
  exact absurd h' (by decide)

/-- C4, amended: after an output processed without error for UID `u`, from a map that
does not hold `u`, the destinations whose set holds `u` are exactly those named by the
store lines of the Performed-actions section, the active mailbox apart; so `u` is in at
most one set when these store lines name at most one such destination. -/
theorem uid_in_stored_destinations (mailboxName : Bytes) (u : UID) (out : Bytes)
    (moves : MoveSet) (hfresh : ∀ d, u ∉ moves.index d)
    (hacc : (processOutput mailboxName u out moves).2 = none) :
    (∀ d, u ∈ (processOutput mailboxName u out moves).1.index d
      ↔ d ≠ mailboxName ∧ d ∈ storeDestinations (scanLines out).1) ∧
    ((∀ d₁ ∈ storeDestinations (scanLines out).1, ∀ d₂ ∈ storeDestinations (scanLines out).1,
        d₁ ≠ mailboxName → d₂ ≠ mailboxName → d₁ = d₂) →
      ∀ d₁ d₂, u ∈ (processOutput mailboxName u out moves).1.index d₁ →
        u ∈ (processOutput mailboxName u out moves).1.index d₂ → d₁ = d₂) := by
  have hmem : ∀ d, u ∈ (processOutput mailboxName u out moves).1.index d
      ↔ d ≠ mailboxName ∧ d ∈ storeDestinations (scanLines out).1 := by
    intro d
    rw [(processOutput_accepted mailboxName u out moves hacc).1, mem_index_foldl_fileInto]
    simp [hfresh d]
  refine ⟨hmem, fun hsame d₁ d₂ h₁ h₂ => ?_⟩
  obtain ⟨a₁, b₁⟩ := (hmem d₁).1 h₁
  obtain ⟨a₂, b₂⟩ := (hmem d₂).1 h₂
  exact hsame d₁ b₁ d₂ b₂ a₁ a₂

/-- An instance of amended C4: two store lines, one for a folder and one for the active
mailbox; the UID ends in the set of the folder only. -/
theorem uid_in_stored_destinations_witness :
    processOutput (utf8 "INBOX") 7
        (utf8 "Performed actions:\n  * store message in folder: A\n  * store message in folder: INBOX\nImplicit keep:\n")
        MoveSet.empty
      = (⟨[(utf8 "A", {7})]⟩, none) ∧
    (7 ∈ (processOutput (utf8 "INBOX") 7
        (utf8 "Performed actions:\n  * store message in folder: A\n  * store message in folder: INBOX\nImplicit keep:\n")
        MoveSet.empty).1.index (utf8 "A")
      ↔ utf8 "A" ≠ utf8 "INBOX" ∧ utf8 "A" ∈ storeDestinations (scanLines
        (utf8 "Performed actions:\n  * store message in folder: A\n  * store message in folder: INBOX\nImplicit keep:\n")).1) :=
  ⟨by decide,
    (uid_in_stored_destinations (utf8 "INBOX") 7
      (utf8 "Performed actions:\n  * store message in folder: A\n  * store message in folder: INBOX\nImplicit keep:\n")
      MoveSet.empty
      (by intro d; simp [MoveSet.index, MoveSet.lookup, MoveSet.empty, lookupEntries])
      (by decide)).1 (utf8 "A")⟩

/-! ## A failed `sieve-test` run -/

/-- C7, the code at a failing run: with standard output `out` and standard error `boom`
the error text shows `out` under both headings, and the result never depends on the
captured standard error. -/
theorem sieve_test_error_repeats_stdout :
    processItem (utf8 "INBOX") 1 (utf8 "/tmp/in.eml")
        (Item.message ⟨1, none, 42, some (utf8 "Subject: x\r\n"), none,
          some (utf8 "exit status 1"), utf8 "out", utf8 "boom"⟩) MoveSet.empty
      = (MoveSet.empty, some (Err.sieveTest
          (utf8 "sieve-test failed: exit status 1\nstdout:\nout\nstderr:\nout"))) ∧
    ∀ (mailboxName : Bytes) (numMessages : Nat) (tmpName : Bytes) (m : Fetched)
      (moves : MoveSet) (e : Bytes),
      processItem mailboxName numMessages tmpName (Item.message { m with stderr := e }) moves
        = processItem mailboxName numMessages tmpName (Item.message m) moves := by
  refine ⟨by decide, ?_⟩
  intro mailboxName numMessages tmpName m moves e
  rfl

/-! ## Performing the moves -/

theorem moveLoop_dry (len : UIDSet → Nat) (move : UIDSet → Bytes → Option Bytes)
    (order : List (Bytes × UIDSet)) (run : MoveRun) :
    moveLoop false len move order run = run := by
  induction order with
  | nil => rfl
  | cons e rest ih =>
    obtain ⟨dst, msgs⟩ := e
    simpa [moveLoop] using ih

theorem moveLoop_execute (len : UIDSet → Nat) (move : UIDSet → Bytes → Option Bytes)
    (order : List (Bytes × UIDSet)) (run : MoveRun) :
    moveLoop true len move order run
      = ⟨run.calls ++ order.map (fun e => (e.2, e.1)),
          run.errs ++ order.filterMap (moveFailure len move)⟩ := by
  induction order generalizing run with
  | nil => simp [moveLoop]
  | cons e rest ih =>
    obtain ⟨dst, msgs⟩ := e
    cases hm : move msgs dst with
    | none => simp [moveLoop, hm, ih, moveFailure]
    | some err => simp [moveLoop, hm, ih, moveFailure]

/-- C6: in dry-run mode the final loop never calls the move operation and the result is
no error, for every map, visiting order and behaviour of the mailbox. -/
theorem dry_run_moves_nothing (len : UIDSet → Nat) (move : UIDSet → Bytes → Option Bytes)
    (order : List (Bytes × UIDSet)) :
    executeMoves false len move order = ([], none) := by
  simp [executeMoves, moveLoop_dry, errorsJoin]

theorem calls_of_key (es : List (Bytes × UIDSet)) (hk : (es.map Prod.fst).Nodup) (d : Bytes)
    (hd : d ∈ es.map Prod.fst) :
    (es.map (fun e => (e.2, e.1))).filter (fun c => decide (c.2 = d))
      = [((lookupEntries es d).getD ∅, d)] := by
  induction es with
  | nil => simp at hd
  | cons e rest ih =>
    obtain ⟨k, v⟩ := e
    simp only [List.map_cons, List.nodup_cons] at hk
    by_cases hkd : k = d
    · subst hkd
      have hnone : ∀ c ∈ rest.map (fun e => (e.2, e.1)), ¬ (decide (c.2 = k) = true) := by
        intro c hc hck
        simp only [List.mem_map] at hc
        obtain ⟨e, he, rfl⟩ := hc
        simp only [decide_eq_true_eq] at hck
        exact hk.1 (List.mem_map.2 ⟨e, he, hck⟩)
      simp [lookupEntries, List.filter_cons, List.filter_eq_nil_iff.2 hnone]
    · have hd' : d ∈ rest.map Prod.fst := by
        simp only [List.map_cons, List.mem_cons] at hd
        rcases hd with hd | hd
        · exact absurd hd.symm hkd
        · exact hd
      simp [lookupEntries, List.filter_cons, hkd, ih hk.2 hd']

/-- C5: in execute mode, whatever order the map is visited in and whichever moves fail,
the move operation is called once for every destination, with the whole set of that
destination; the result is an error exactly when some move failed; and the joined error
holds, for each destination whose move failed, one entry with that destination and the
error of its move, the entries being the same up to order for every visiting order. -/
theorem execute_attempts_every_destination (m : MoveSet) (hk : m.keys.Nodup)
    (len : UIDSet → Nat) (move : UIDSet → Bytes → Option Bytes)
    (order : List (Bytes × UIDSet)) (horder : order.Perm m.entries) :
    (executeMoves true len move order).1 = order.map (fun e => (e.2, e.1)) ∧
    (∀ d ∈ m.keys,
      (executeMoves true len move order).1.filter (fun c => decide (c.2 = d))
        = [(m.index d, d)]) ∧
    (∀ c ∈ (executeMoves true len move order).1, c.2 ∈ m.keys) ∧
    ((executeMoves true len move order).2 ≠ none
      ↔ ∃ e ∈ m.entries, move e.2 e.1 ≠ none) ∧
    (executeMoves true len move order).2
      = errorsJoin (order.filterMap (moveFailure len move)) ∧
    (order.filterMap (moveFailure len move)).Perm
      (m.entries.filterMap (moveFailure len move)) := by
  have hcalls : (executeMoves true len move order).1 = order.map (fun e => (e.2, e.1)) := by
    simp [executeMoves, moveLoop_execute]
  have hres : (executeMoves true len move order).2
      = errorsJoin (order.filterMap (moveFailure len move)) := by
    simp [executeMoves, moveLoop_execute]
  refine ⟨hcalls, ?_, ?_, ?_, hres, horder.filterMap _⟩
  · intro d hd
    have hp : ((order.map (fun e => (e.2, e.1))).filter (fun c => decide (c.2 = d))).Perm
        ((m.entries.map (fun e => (e.2, e.1))).filter (fun c => decide (c.2 = d))) :=
      (horder.map _).filter _
    rw [calls_of_key m.entries hk d hd] at hp
    rw [hcalls, List.perm_singleton.1 hp]
    rfl
  · intro c hc
    rw [hcalls, List.mem_map] at hc
    obtain ⟨e, he, rfl⟩ := hc
    exact List.mem_map.2 ⟨e, horder.mem_iff.1 he, rfl⟩
  · rw [hres]
    unfold errorsJoin
    constructor
    · intro h
      by_cases hnil : order.filterMap (moveFailure len move) = []
      · simp [hnil] at h
      · obtain ⟨x, hx⟩ := List.exists_mem_of_ne_nil _ hnil
        obtain ⟨e, he, hex⟩ := List.mem_filterMap.1 hx
        refine ⟨e, horder.mem_iff.1 he, ?_⟩
        intro hnone
        simp [moveFailure, hnone] at hex
    · rintro ⟨e, he, hex⟩
      obtain ⟨cause, hcause⟩ := Option.ne_none_iff_exists'.1 hex
      have hmem : (⟨len e.2, e.1, cause⟩ : MoveError)
          ∈ order.filterMap (moveFailure len move) :=
        List.mem_filterMap.2 ⟨e, horder.mem_iff.2 he, by simp [moveFailure, hcause]⟩
      have hnil : order.filterMap (moveFailure len move) ≠ [] :=
        List.ne_nil_of_mem hmem
      simp [hnil]

/-- An instance of C5: two destinations, visited in the other order; the move to
`Archive` fails and the move to `Spam` is still made. -/
theorem execute_attempts_every_destination_witness :
    (executeMoves true Finset.card
        (fun _ dst => if dst = utf8 "Archive" then some (utf8 "NO no such mailbox") else none)
        [(utf8 "Spam", {3}), (utf8 "Archive", {1, 2})]).1
      = [({3}, utf8 "Spam"), ({1, 2}, utf8 "Archive")] ∧
    (executeMoves true Finset.card
        (fun _ dst => if dst = utf8 "Archive" then some (utf8 "NO no such mailbox") else none)
        [(utf8 "Spam", {3}), (utf8 "Archive", {1, 2})]).2
      = some (Err.join [⟨2, utf8 "Archive", utf8 "NO no such mailbox"⟩]) :=
  have h := execute_attempts_every_destination
    ⟨[(utf8 "Archive", {1, 2}), (utf8 "Spam", {3})]⟩ (by decide) Finset.card
    (fun _ dst => if dst = utf8 "Archive" then some (utf8 "NO no such mailbox") else none)
    [(utf8 "Spam", {3}), (utf8 "Archive", {1, 2})] (List.Perm.swap _ _ _)
  ⟨h.1, h.2.2.2.2.1.trans (by decide)⟩

/-! ## The iterator adapters -/

theorem all_yieldElem {σ Elem : Type} (yield : σ → Option Elem → Option Bytes → σ × Bool)
    (p : List Elem) (cr : List Elem → Option Bytes) (cc : Nat) (fuel : Nat)
    (c : Consumed σ Elem) (hfuel : p.length < fuel) :
    ∃ it' c', all (yieldElem yield) fuel ⟨p, cr, cc⟩ c = some (it', c') ∧
      it'.closeResult = cr ∧ it'.closeCalls = cc ∧
      ((c'.broke = c.broke ∧ it'.pending = [] ∧
          c'.yielded = c.yielded ++ p.map (fun e => ⟨some e, none, true⟩)) ∨
        (c'.broke = true ∧ ∃ n e, p.get? n = some e ∧
          c'.yielded = c.yielded ++ (p.take n).map (fun e => ⟨some e, none, true⟩)
            ++ [⟨some e, none, false⟩])) := by
  induction p generalizing fuel c with
  | nil =>
    cases fuel with
    | zero => simp at hfuel
    | succ fuel =>
      exact ⟨⟨[], cr, cc⟩, c, by simp [all, Iterator.Next], rfl, rfl, Or.inl ⟨rfl, rfl, by simp⟩⟩
  | cons e rest ih =>
    cases fuel with
    | zero => simp at hfuel
    | succ fuel =>
      have hfuel' : rest.length < fuel := by simpa using hfuel
      cases hy : yield c.state (some e) none with
      | mk s' more =>
        cases more with
        | false =>
          refine ⟨⟨rest, cr, cc⟩, ⟨s', c.yielded ++ [⟨some e, none, false⟩], true⟩, ?_,
            rfl, rfl, Or.inr ⟨rfl, 0, e, rfl, by simp⟩⟩
          simp [all, Iterator.Next, yieldElem, hy]
        | true =>
          obtain ⟨it', c', h1, h2, h3, h4⟩ :=
            ih fuel ⟨s', c.yielded ++ [⟨some e, none, true⟩], c.broke⟩ hfuel'
          refine ⟨it', c', ?_, h2, h3, ?_⟩
          · simpa [all, Iterator.Next, yieldElem, hy] using h1
          · rcases h4 with ⟨a1, a2, a3⟩ | ⟨a1, n, x, a2, a3⟩
            · exact Or.inl ⟨a1, a2, by simpa using a3⟩
            · exact Or.inr ⟨a1, n + 1, x, by simpa using a2, by simpa using a3⟩

/-- C10: over an iterator with finitely many elements left, `allAndClose` returns, has
called `Close` exactly once, and has yielded either every element in order, each with a
nil error, followed by the error of `Close` when there is one (the consumer did not stop),
or the elements up to the one at which the consumer stopped and nothing after it, the
error of `Close` included. -/
theorem allAndClose_closes_once {σ Elem : Type} (it : Iterator Elem)
    (yield : σ → Option Elem → Option Bytes → σ × Bool) (s : σ) (fuel : Nat)
    (hfuel : it.pending.length < fuel) :
    ∃ it' c, allAndClose fuel it yield s = some (it', c) ∧
      it'.closeCalls = it.closeCalls + 1 ∧
      ((c.broke = false ∧
          ((it.closeResult [] = none ∧
              c.yielded = it.pending.map (fun e => ⟨some e, none, true⟩)) ∨
            (∃ err more, it.closeResult [] = some err ∧
              c.yielded = it.pending.map (fun e => ⟨some e, none, true⟩)
                ++ [⟨none, some err, more⟩]))) ∨
        (c.broke = true ∧ ∃ n e, it.pending.get? n = some e ∧
          c.yielded = (it.pending.take n).map (fun e => ⟨some e, none, true⟩)
            ++ [⟨some e, none, false⟩])) := by
  obtain ⟨p, cr, cc⟩ := it
  obtain ⟨it', c', h1, h2, h3, h4⟩ := all_yieldElem yield p cr cc fuel ⟨s, [], false⟩ hfuel
  obtain ⟨p', cr', cc'⟩ := it'
  simp only at h2 h3
  subst h2 h3
  rcases h4 with ⟨a1, a2, a3⟩ | ⟨a1, n, x, a2, a3⟩
  · simp only at a1 a2 a3
    subst a2
    cases hc : cr' [] with
    | none =>
      refine ⟨⟨[], cr', cc' + 1⟩, c', ?_, rfl, Or.inl ⟨a1, Or.inl ⟨hc, by simpa using a3⟩⟩⟩
      simp [allAndClose, h1, Iterator.Close, hc]
    | some err =>
      refine ⟨⟨[], cr', cc' + 1⟩, ⟨(yield c'.state none (some err)).1,
        c'.yielded ++ [⟨none, some err, (yield c'.state none (some err)).2⟩], c'.broke⟩, ?_,
        rfl, Or.inl ⟨a1, Or.inr ⟨err, (yield c'.state none (some err)).2, hc, by simp [a3]⟩⟩⟩
      simp [allAndClose, h1, Iterator.Close, hc, a1]
  · refine ⟨⟨p', cr', cc' + 1⟩, c', ?_, rfl, Or.inr ⟨a1, n, x, a2, by simpa using a3⟩⟩
    cases hc : cr' p' with
    | none => simp [allAndClose, h1, Iterator.Close, hc]
    | some err => simp [allAndClose, h1, Iterator.Close, hc, a1]

/-! ## The whole stream -/

theorem processItem_ok (mailboxName : Bytes) (numMessages : Nat) (tmpName : Bytes)
    (item : Item) (moves moves' : MoveSet)
    (h : processItem mailboxName numMessages tmpName item moves = (moves', none)) :
    moves' = aggregateItem mailboxName moves item := by
  cases item with
  | failed err => simp [processItem] at h
  | message m =>
    simp only [processItem] at h
    simp only [aggregateItem, filedInto]
    cases hc : m.collectErr with
    | some e => simp [hc] at h
    | none =>
      cases hh : m.header with
      | none =>
        simp only [hc, hh, Prod.mk.injEq, and_true] at h
        simp [h]
      | some hd =>
        cases hw : m.writeErr with
        | some e => simp [hc, hh, hw] at h
        | none =>
          cases hr : m.runErr with
          | some e => simp [hc, hh, hw, hr] at h
          | none =>
            simp only [hc, hh, hw, hr] at h
            have hacc : (processOutput mailboxName m.uid m.stdout moves).2 = none := by
              rw [h]
            have := (processOutput_accepted mailboxName m.uid m.stdout moves hacc).1
            rw [h] at this
            exact this

theorem processAll_ok (mailboxName : Bytes) (numMessages : Nat) (tmpName : Bytes)
    (items : List Item) (moves moves' : MoveSet)
    (h : processAll mailboxName numMessages tmpName items moves = (moves', none)) :
    moves' = items.foldl (aggregateItem mailboxName) moves := by
  induction items generalizing moves with
  | nil =>
    simp only [processAll, Prod.mk.injEq, and_true] at h
    simp [h]
  | cons item rest ih =>
    rw [processAll] at h
    cases hp : processItem mailboxName numMessages tmpName item moves with
    | mk mv e =>
      cases e with
      | some e => simp [hp] at h
      | none =>
        simp only [hp] at h
        rw [List.foldl_cons, ← processItem_ok mailboxName numMessages tmpName item moves mv hp]
        exact ih mv h

theorem mem_index_aggregate (mailboxName : Bytes) (items : List Item) (moves : MoveSet)
    (d : Bytes) (u : UID) :
    u ∈ (items.foldl (aggregateItem mailboxName) moves).index d
      ↔ u ∈ moves.index d ∨
        (d ≠ mailboxName ∧ ∃ item ∈ items, itemUID item = some u ∧ d ∈ filedInto item) := by
  induction items generalizing moves with
  | nil => simp
  | cons item rest ih =>
    rw [List.foldl_cons, ih]
    cases item with
    | failed err =>
      simp [aggregateItem, itemUID, filedInto]
    | message m =>
      simp only [aggregateItem, mem_index_foldl_fileInto, itemUID, List.mem_cons,
        exists_eq_or_imp, Option.some.injEq]
      constructor
      · rintro ((h | ⟨h1, h2, h3⟩) | ⟨h1, h2⟩)
        · exact Or.inl h
        · exact Or.inr ⟨h2, Or.inl ⟨h1.symm, h3⟩⟩
        · exact Or.inr ⟨h1, Or.inr h2⟩
      · rintro (h | ⟨h1, (⟨h2, h3⟩ | h2)⟩)
        · exact Or.inl (Or.inl h)
        · exact Or.inl (Or.inr ⟨h2.symm, h1, h3⟩)
        · exact Or.inr ⟨h1, h2⟩

theorem lookup_isSome_fileInto (mailboxName : Bytes) (uid : UID) (m : MoveSet) (d k : Bytes) :
    ((fileInto mailboxName uid m d).lookup k).isSome
      ↔ (m.lookup k).isSome ∨ (k = d ∧ d ≠ mailboxName) := by
  rw [lookup_fileInto]
  by_cases h : k = d ∧ d ≠ mailboxName
  · simp [h]
  · simp [h]

theorem lookup_isSome_foldl_fileInto (mailboxName : Bytes) (uid : UID) (ds : List Bytes)
    (m : MoveSet) (k : Bytes) :
    ((ds.foldl (fileInto mailboxName uid) m).lookup k).isSome
      ↔ (m.lookup k).isSome ∨ (k ≠ mailboxName ∧ k ∈ ds) := by
  induction ds generalizing m with
  | nil => simp
  | cons d rest ih =>
    rw [List.foldl_cons, ih, lookup_isSome_fileInto]
    by_cases hk : k = d
    · subst hk
      simp only [true_and, List.mem_cons, true_or, and_true]
      tauto
    · simp [hk]

theorem lookup_isSome_aggregate (mailboxName : Bytes) (items : List Item) (moves : MoveSet)
    (d : Bytes) :
    ((items.foldl (aggregateItem mailboxName) moves).lookup d).isSome
      ↔ (moves.lookup d).isSome ∨
        (d ≠ mailboxName ∧ ∃ item ∈ items, d ∈ filedInto item) := by
  induction items generalizing moves with
  | nil => simp
  | cons item rest ih =>
    rw [List.foldl_cons, ih]
    cases item with
    | failed err => simp [aggregateItem, filedInto]
    | message m =>
      simp only [aggregateItem, lookup_isSome_foldl_fileInto, List.mem_cons, exists_eq_or_imp]
      tauto

theorem mem_keys_iff (m : MoveSet) (d : Bytes) : d ∈ m.keys ↔ (m.lookup d).isSome := by
  obtain ⟨es⟩ := m
  simp only [MoveSet.keys, MoveSet.lookup]
  induction es with
  | nil => simp [lookupEntries]
  | cons e rest ih =>
    obtain ⟨k, v⟩ := e
    by_cases hk : k = d
    · simp [lookupEntries, hk]
    · have hk' : ¬ d = k := fun e => hk e.symm
      simp only [List.map_cons, List.mem_cons, hk', false_or, lookupEntries, if_neg hk]
      exact ih

theorem keys_assignEntries (es : List (Bytes × UIDSet)) (key : Bytes) (v : UIDSet) :
    (assignEntries es key v).map Prod.fst
      = if key ∈ es.map Prod.fst then es.map Prod.fst else es.map Prod.fst ++ [key] := by
  induction es with
  | nil => simp [assignEntries]
  | cons e rest ih =>
    obtain ⟨k, w⟩ := e
    by_cases hk : k = key
    · simp [assignEntries, hk]
    · have hk' : ¬ key = k := fun e => hk e.symm
      simp only [assignEntries, if_neg hk, List.map_cons, ih, List.mem_cons, hk', false_or]
      split_ifs <;> simp

theorem nodup_keys_fileInto (mailboxName : Bytes) (uid : UID) (m : MoveSet) (d : Bytes)
    (h : m.keys.Nodup) : (fileInto mailboxName uid m d).keys.Nodup := by
  unfold fileInto
  split_ifs with hd
  · exact h
  · simp only [MoveSet.keys, MoveSet.assign, keys_assignEntries]
    split_ifs with hmem
    · exact h
    · refine List.Nodup.append h (List.nodup_singleton d) ?_
      intro a ha hd'
      rw [List.mem_singleton] at hd'
      subst hd'
      exact hmem ha

theorem nodup_keys_foldl_fileInto (mailboxName : Bytes) (uid : UID) (ds : List Bytes)
    (m : MoveSet) (h : m.keys.Nodup) :
    (ds.foldl (fileInto mailboxName uid) m).keys.Nodup := by
  induction ds generalizing m with
  | nil => exact h
  | cons d rest ih => exact ih _ (nodup_keys_fileInto mailboxName uid m d h)

theorem nodup_keys_aggregate (mailboxName : Bytes) (items : List Item) (m : MoveSet)
    (h : m.keys.Nodup) : (items.foldl (aggregateItem mailboxName) m).keys.Nodup := by
  induction items generalizing m with
  | nil => exact h
  | cons item rest ih =>
    refine ih _ ?_
    cases item with
    | failed err => exact h
    | message msg => exact nodup_keys_foldl_fileInto mailboxName msg.uid _ m h

theorem nonempty_fileInto (mailboxName : Bytes) (uid : UID) (m : MoveSet) (d : Bytes)
    (h : ∀ k s, m.lookup k = some s → s.Nonempty) :
    ∀ k s, (fileInto mailboxName uid m d).lookup k = some s → s.Nonempty := by
  intro k s hs
  rw [lookup_fileInto] at hs
  split_ifs at hs
  · cases hs
    exact Finset.insert_nonempty _ _
  · exact h k s hs

theorem nonempty_foldl_fileInto (mailboxName : Bytes) (uid : UID) (ds : List Bytes)
    (m : MoveSet) (h : ∀ k s, m.lookup k = some s → s.Nonempty) :
    ∀ k s, (ds.foldl (fileInto mailboxName uid) m).lookup k = some s → s.Nonempty := by
  induction ds generalizing m with
  | nil => exact h
  | cons d rest ih => exact ih _ (nonempty_fileInto mailboxName uid m d h)

theorem nonempty_aggregate (mailboxName : Bytes) (items : List Item) (m : MoveSet)
    (h : ∀ k s, m.lookup k = some s → s.Nonempty) :
    ∀ k s, (items.foldl (aggregateItem mailboxName) m).lookup k = some s → s.Nonempty := by
  induction items generalizing m with
  | nil => exact h
  | cons item rest ih =>
    refine ih _ ?_
    cases item with
    | failed err => exact h
    | message msg => exact nonempty_foldl_fileInto mailboxName msg.uid _ m h

theorem length_filedInto_uids (items : List Item) (d : Bytes) :
    ((items.filter (fun i => decide (d ∈ filedInto i))).filterMap itemUID).length
      = (items.filter (fun i => decide (d ∈ filedInto i))).length := by
  induction items with
  | nil => rfl
  | cons item rest ih =>
    cases item with
    | failed err => simpa [List.filter_cons, filedInto] using ih
    | message m =>
      by_cases h : d ∈ filedInto (Item.message m)
      · simp [List.filter_cons, h, itemUID, ih]
      · simpa [List.filter_cons, h] using ih

theorem card_index_aggregate (mailboxName : Bytes) (items : List Item) (d : Bytes)
    (hd : d ≠ mailboxName) (huid : (items.filterMap itemUID).Nodup) :
    ((items.foldl (aggregateItem mailboxName) MoveSet.empty).index d).card
      = (items.filter (fun i => decide (d ∈ filedInto i))).length := by
  have hset : (items.foldl (aggregateItem mailboxName) MoveSet.empty).index d
      = ((items.filter (fun i => decide (d ∈ filedInto i))).filterMap itemUID).toFinset := by
    ext u
    rw [mem_index_aggregate]
    simp only [MoveSet.index, MoveSet.lookup, MoveSet.empty, lookupEntries, Option.getD_none,
      Finset.not_mem_empty, false_or, List.mem_toFinset, List.mem_filterMap, List.mem_filter,
      decide_eq_true_eq]
    constructor
    · rintro ⟨_, item, h1, h2, h3⟩
      exact ⟨item, ⟨h1, h3⟩, h2⟩
    · rintro ⟨item, ⟨h1, h3⟩, h2⟩
      exact ⟨hd, item, h1, h2, h3⟩
  have hnd : ((items.filter (fun i => decide (d ∈ filedInto i))).filterMap itemUID).Nodup :=
    List.Nodup.sublist ((List.filter_sublist items).filterMap itemUID) huid
  rw [hset, List.toFinset_card_of_nodup hnd, length_filedInto_uids]

/-- C3: after a stream whose messages are all processed without error, from the empty
map and with active mailbox `mailboxName`: a UID is in the set under `d` exactly when `d`
is not the active mailbox and a message with that UID has a store line for `d` in its
Performed-actions section; every key has a non-empty set; the active mailbox is no key;
and when the messages have distinct UIDs and every store line names `X`, `Y` or the active
mailbox, with `N > 0` messages filed into `X` and `M > 0` into `Y`, the keys are exactly
`X` and `Y`, holding `N` and `M` identifiers. -/
theorem stream_fills_moves (mailboxName : Bytes) (numMessages : Nat) (tmpName : Bytes)
    (items : List Item) (moves : MoveSet)
    (hrun : processAll mailboxName numMessages tmpName items MoveSet.empty = (moves, none)) :
    (∀ u d, u ∈ moves.index d
      ↔ d ≠ mailboxName ∧ ∃ item ∈ items, itemUID item = some u ∧ d ∈ filedInto item) ∧
    (∀ d s, moves.lookup d = some s → s.Nonempty) ∧
    mailboxName ∉ moves.keys ∧
    (∀ X Y : Bytes, X ≠ Y → X ≠ mailboxName → Y ≠ mailboxName →
      (items.filterMap itemUID).Nodup →
      (∀ item ∈ items, ∀ d ∈ filedInto item, d = X ∨ d = Y ∨ d = mailboxName) →
      0 < (items.filter (fun i => decide (X ∈ filedInto i))).length →
      0 < (items.filter (fun i => decide (Y ∈ filedInto i))).length →
      moves.keys.Perm [X, Y] ∧
      (moves.index X).card = (items.filter (fun i => decide (X ∈ filedInto i))).length ∧
      (moves.index Y).card = (items.filter (fun i => decide (Y ∈ filedInto i))).length) := by
  have hm := processAll_ok mailboxName numMessages tmpName items MoveSet.empty moves hrun
  subst hm
  have hkeys : ∀ d, d ∈ (items.foldl (aggregateItem mailboxName) MoveSet.empty).keys
      ↔ d ≠ mailboxName ∧ ∃ item ∈ items, d ∈ filedInto item := by
    intro d
    rw [mem_keys_iff, lookup_isSome_aggregate]
    simp [MoveSet.lookup, MoveSet.empty, lookupEntries]
  refine ⟨?_, ?_, ?_, ?_⟩
  · intro u d
    rw [mem_index_aggregate]
    simp [MoveSet.index, MoveSet.lookup, MoveSet.empty, lookupEntries]
  · exact nonempty_aggregate mailboxName items MoveSet.empty
      (by intro k s h; simp [MoveSet.lookup, MoveSet.empty, lookupEntries] at h)
  · intro h
    exact ((hkeys mailboxName).1 h).1 rfl
  · intro X Y hXY hX hY huid hform hN hM
    refine ⟨?_, card_index_aggregate mailboxName items X hX huid,
      card_index_aggregate mailboxName items Y hY huid⟩
    have hnd : (items.foldl (aggregateItem mailboxName) MoveSet.empty).keys.Nodup :=
      nodup_keys_aggregate mailboxName items MoveSet.empty (by simp [MoveSet.keys, MoveSet.empty])
    have hnd2 : [X, Y].Nodup := by simp [hXY]
    rw [List.perm_ext_iff_of_nodup hnd hnd2]
    intro d
    rw [hkeys]
    constructor
    · rintro ⟨h1, item, h2, h3⟩
      rcases hform item h2 d h3 with h | h | h
      · simp [h]
      · simp [h]
      · exact absurd h h1
    · intro hd
      simp only [List.mem_cons, List.mem_singleton, List.not_mem_nil, or_false] at hd
      rcases hd with hd | hd
      · subst hd
        obtain ⟨item, hitem⟩ := List.exists_mem_of_length_pos hN
        rw [List.mem_filter, decide_eq_true_eq] at hitem
        exact ⟨hX, item, hitem.1, hitem.2⟩
      · subst hd
        obtain ⟨item, hitem⟩ := List.exists_mem_of_length_pos hM
        rw [List.mem_filter, decide_eq_true_eq] at hitem
        exact ⟨hY, item, hitem.1, hitem.2⟩

/-- An instance of C3 on `sampleStream`. -/
theorem stream_fills_moves_witness :
    processAll (utf8 "INBOX") 5 (utf8 "/tmp/in.eml") sampleStream MoveSet.empty
      = (⟨[(utf8 "Archive", {14, 11}), (utf8 "Spam", {13})]⟩, none) ∧
    (MoveSet.keys ⟨[(utf8 "Archive", {14, 11}), (utf8 "Spam", {13})]⟩).Perm
      [utf8 "Archive", utf8 "Spam"] ∧
    (MoveSet.index ⟨[(utf8 "Archive", {14, 11}), (utf8 "Spam", {13})]⟩ (utf8 "Archive")).card
      = (sampleStream.filter (fun i => decide (utf8 "Archive" ∈ filedInto i))).length ∧
    (MoveSet.index ⟨[(utf8 "Archive", {14, 11}), (utf8 "Spam", {13})]⟩ (utf8 "Spam")).card
      = (sampleStream.filter (fun i => decide (utf8 "Spam" ∈ filedInto i))).length :=
  ⟨by decide,
    (stream_fills_moves (utf8 "INBOX") 5 (utf8 "/tmp/in.eml") sampleStream
      ⟨[(utf8 "Archive", {14, 11}), (utf8 "Spam", {13})]⟩ (by decide)).2.2.2
      (utf8 "Archive") (utf8 "Spam") (by decide) (by decide) (by decide) (by decide)
      (by decide) (by decide) (by decide)⟩

/-- An instance of C10 on `sampleIterator`: a consumer that stops at the second element
gets two pairs and no error of `Close`; one that never stops gets the three elements and
then the error of `Close`; `Close` is called once in both runs. -/
theorem allAndClose_closes_once_witness :
    (allAndClose 4 sampleIterator stopAtTwenty 0).map
        (fun r => (r.1.closeCalls, r.2.state, r.2.summary))
      = some (1, 2, true, [(some 10, none, true), (some 20, none, false)]) ∧
    (allAndClose 4 sampleIterator neverStop 0).map
        (fun r => (r.1.closeCalls, r.2.state, r.2.summary))
      = some (1, 4, false, [(some 10, none, true), (some 20, none, true),
          (some 30, none, true), (none, some (utf8 "closed"), true)]) ∧
    ∃ it' c, allAndClose 4 sampleIterator stopAtTwenty 0 = some (it', c) ∧
      it'.closeCalls = sampleIterator.closeCalls + 1 ∧
      ((c.broke = false ∧
          ((sampleIterator.closeResult [] = none ∧
              c.yielded = sampleIterator.pending.map (fun e => ⟨some e, none, true⟩)) ∨
            (∃ err more, sampleIterator.closeResult [] = some err ∧
              c.yielded = sampleIterator.pending.map (fun e => ⟨some e, none, true⟩)
                ++ [⟨none, some err, more⟩]))) ∨
        (c.broke = true ∧ ∃ n e, sampleIterator.pending.get? n = some e ∧
          c.yielded = (sampleIterator.pending.take n).map (fun e => ⟨some e, none, true⟩)
            ++ [⟨some e, none, false⟩])) :=
  ⟨by rfl, by rfl, allAndClose_closes_once sampleIterator stopAtTwenty 0 4 (by decide)⟩

end ImapSieveFilter
